import Mathlib

/-!
Verification of `neptunelearn/linear_models/neural_classifier.py`
(Perceptron and AdalineGD) against its natural-language specification.

Numbers are modelled as exact rationals, matrices as lists of row lists.
The base class `NeuralBase` (file `neptunelearn/linear_models/base.py`) is
not part of the sources, so its two members used here (`make_polynomial`,
`net_input`) are modelled from the spec, as marked in their doc comments.
-/

/- The Batteries rational-number operations are irreducible by default,
which blocks kernel evaluation of concrete runs; make them reducible for
this development so that closed statements can be settled by decide. -/
attribute [local semireducible] Rat.add Rat.mul Rat.sub Rat.inv

/-! ## Vector and matrix helpers -/

/-- Elementwise sum of two vectors (numpy broadcast `+` on equal shapes). -/
def vadd (a b : List ℚ) : List ℚ := List.zipWith (· + ·) a b

/-- Elementwise difference of two vectors. -/
def vsub (a b : List ℚ) : List ℚ := List.zipWith (· - ·) a b

/-- Scalar times vector (numpy `c * v`). -/
def smul (c : ℚ) (v : List ℚ) : List ℚ := v.map (fun a => c * a)

/-- Vector divided elementwise by a scalar (numpy `v / c`). -/
def vdiv (v : List ℚ) (c : ℚ) : List ℚ := v.map (fun a => a / c)

/-- Sum of squares of the entries: the square of the Euclidean norm. -/
def sqNorm (v : List ℚ) : ℚ := (v.map (fun a => a * a)).sum

/-- Number of columns of a row-major matrix (numpy `X.shape[1]`). -/
def cols (X : List (List ℚ)) : Nat := (X.headD []).length

/-- The comparison `np.linalg.norm v <= tol`: since the Euclidean norm is
nonnegative, it is equivalent to `0 ≤ tol` together with `sqNorm v ≤ tol²`,
which keeps the test inside the rationals. -/
def normLe (v : List ℚ) (tol : ℚ) : Prop := 0 ≤ tol ∧ sqNorm v ≤ tol * tol

instance (v : List ℚ) (tol : ℚ) : Decidable (normLe v tol) :=
  inferInstanceAs (Decidable (0 ≤ tol ∧ sqNorm v ≤ tol * tol))

/-! ## Spec-modelled members of the missing base class -/

/-- Modelled from the spec: `NeuralBase.net_input` lives in
`neptunelearn/linear_models/base.py`, which is not among the sources.
Spec §4.2: "net_input(X, thetas): returns X · thetas (dot product per row)".
This is the single-row case, the dot product of `x` and `thetas`. -/
def net_input (x thetas : List ℚ) : ℚ := (List.zipWith (· * ·) x thetas).sum

/-- Modelled from the spec: the vectorized form of `NeuralBase.net_input`
(design matrix times weight vector), one dot product per row. -/
def net_input_batch (X : List (List ℚ)) (thetas : List ℚ) : List ℚ :=
  X.map (fun row => net_input row thetas)

/-- Modelled from the spec: `NeuralBase.make_polynomial` lives in
`neptunelearn/linear_models/base.py`, which is not among the sources.
Spec §4.1: for degree = 1 the identity expansion, optionally prefixed by a
constant-1 bias column; higher degrees append polynomial powers (the exact
combination policy is an implementation choice; all call sites in the
verified file use degree = 1). -/
def make_polynomial (X : List (List ℚ)) (degree : Nat) (bias : Bool) : List (List ℚ) :=
  let rows := X.map (fun r => (List.range degree).flatMap (fun k => r.map (fun a => a ^ (k + 1))))
  if bias then rows.map (fun r => 1 :: r) else rows

/-! ## Perceptron -/

/-- Fitted/hyperparameter state of a `Perceptron` instance: fields `thetas`,
`weights` (the per-epoch snapshot DataFrame, `none` before `fit`), the
`errors` history created by `fit`, and the dataclass fields
`degree`, `bias`, `tol`. -/
structure PerceptronModel where
  thetas : List ℚ
  weights : Option (List (List ℚ))
  errors : List Nat
  degree : Nat
  bias : Bool
  tol : ℚ
deriving DecidableEq, Repr

/-- Source default of the dataclass field `tol: float = 10e-6`
(the decimal literal `10e-6`, i.e. `10 × 10⁻⁶ = 10⁻⁵`). -/
def Perceptron.tolDefault : ℚ := 10 / 1000000

/-- A freshly constructed `Perceptron()` with all dataclass defaults:
`thetas = np.array([])`, `weights = None`, `degree = 1`, `bias = True`,
`tol = 10e-6`. The `errors` attribute does not exist before `fit`;
it is modelled as the empty list. -/
def Perceptron.default : PerceptronModel :=
  { thetas := [], weights := none, errors := [], degree := 1, bias := true,
    tol := Perceptron.tolDefault }

/-- Source `Perceptron.predict` (line 97):
`1 if self.net_input(X, self.thetas) >= 0 else -1`, with the current
weight vector passed explicitly. -/
def Perceptron.predict (thetas x : List ℚ) : ℚ :=
  if 0 ≤ net_input x thetas then 1 else -1

/-- Method form of `Perceptron.predict`: reads the instance state and
performs no assignment to it, so it returns the state unchanged next to
the predicted label. -/
def Perceptron.predictM (m : PerceptronModel) (x : List ℚ) : PerceptronModel × ℚ :=
  (m, Perceptron.predict m.thetas x)

/-- Body of the inner `for xi, target in zip(X, y)` loop of `Perceptron.fit`
(lines 66-70): on a misclassification, `thetas += target * xi` and
`error += 1`. -/
def perceptronStep (s : List ℚ × Nat) (p : List ℚ × ℚ) : List ℚ × Nat :=
  if p.2 ≠ Perceptron.predict s.1 p.1 then (vadd s.1 (smul p.2 p.1), s.2 + 1) else s

/-- One full epoch of `Perceptron.fit`: fold the inner loop over the
zipped (design row, target) pairs, starting with `error = 0`. -/
def perceptronEpoch (thetas : List ℚ) (pairs : List (List ℚ × ℚ)) : List ℚ × Nat :=
  pairs.foldl perceptronStep (thetas, 0)

/-- One iteration of the `while not converged` loop body acting on the
instance state (lines 62-73): run an epoch, append the epoch's
misclassification count to `self.errors`, and store the weight snapshot
`weights[index] = self.thetas.copy()`. -/
def epochUpdate (pairs : List (List ℚ × ℚ)) (s : PerceptronModel) : PerceptronModel :=
  let r := perceptronEpoch s.thetas pairs
  { s with thetas := r.1, errors := s.errors ++ [r.2],
           weights := some ((s.weights.getD []) ++ [r.1]) }

/-- The `while not converged` loop of `Perceptron.fit` (lines 61-75) with
explicit fuel: `none` means the loop did not terminate within `fuel`
epochs.  After each epoch the loop exits iff
`np.linalg.norm(self.thetas - prev_weights) <= self.tol`. -/
def perceptronLoop (tol : ℚ) (pairs : List (List ℚ × ℚ)) : Nat → PerceptronModel → Option PerceptronModel
  | 0, _ => none
  | fuel + 1, s =>
    let s' := epochUpdate pairs s
    if normLe (vsub s'.thetas s.thetas) tol then some s'
    else perceptronLoop tol pairs fuel s'

/-- Result of `Perceptron.fit` once its loop has terminated: either the
fitted instance, or the `ValueError` raised by
`pd.DataFrame.from_dict(weights, orient="index", columns=["bias", "weight1", "weight2"])`
when the stored weight vectors do not have exactly 3 entries. -/
inductive PFit where
  | ok : PerceptronModel → PFit
  | valueError : PFit
deriving DecidableEq, Repr

/-- Source `Perceptron.fit` (lines 35-80): expand the design matrix, zero
the weights, reset the histories, run the convergence loop, then build the
snapshot DataFrame with the three fixed column names. -/
def Perceptron.fit (m : PerceptronModel) (fuel : Nat) (X : List (List ℚ)) (y : List ℚ) : Option PFit :=
  let Xd := make_polynomial X m.degree m.bias
  let s0 : PerceptronModel :=
    { m with thetas := List.replicate (cols Xd) 0, errors := [], weights := some [] }
  match perceptronLoop m.tol (Xd.zip y) fuel s0 with
  | none => none
  | some s => if cols Xd = 3 then some (PFit.ok s) else some PFit.valueError

/-! ## Learning-rate-scaled Perceptron variant (spec side) -/

/-- Modelled from the spec: the learning-rate-scaled variant of the
Perceptron update discussed in the source docstring and spec §4.3/§8
("scaling the update by a positive learning rate"), i.e.
`thetas += eta * target * xi` instead of `thetas += target * xi`.
The source's update is the `eta = 1` instance. -/
def perceptronEtaStep (eta : ℚ) (s : List ℚ × Nat) (p : List ℚ × ℚ) : List ℚ × Nat :=
  if p.2 ≠ Perceptron.predict s.1 p.1 then (vadd s.1 (smul (eta * p.2) p.1), s.2 + 1) else s

/-- Modelled from the spec: one epoch of the learning-rate-scaled variant. -/
def perceptronEtaEpoch (eta : ℚ) (thetas : List ℚ) (pairs : List (List ℚ × ℚ)) : List ℚ × Nat :=
  pairs.foldl (perceptronEtaStep eta) (thetas, 0)

/-- Modelled from the spec: the per-epoch state update of the
learning-rate-scaled variant (same bookkeeping as `epochUpdate`). -/
def epochEtaUpdate (eta : ℚ) (pairs : List (List ℚ × ℚ)) (s : PerceptronModel) : PerceptronModel :=
  let r := perceptronEtaEpoch eta s.thetas pairs
  { s with thetas := r.1, errors := s.errors ++ [r.2],
           weights := some ((s.weights.getD []) ++ [r.1]) }

/-- Modelled from the spec: the convergence loop of the
learning-rate-scaled variant, with the same tolerance test. -/
def perceptronEtaLoop (eta tol : ℚ) (pairs : List (List ℚ × ℚ)) : Nat → PerceptronModel → Option PerceptronModel
  | 0, _ => none
  | fuel + 1, s =>
    let s' := epochEtaUpdate eta pairs s
    if normLe (vsub s'.thetas s.thetas) tol then some s'
    else perceptronEtaLoop eta tol pairs fuel s'

/-- Modelled from the spec: `fit` of the learning-rate-scaled variant. -/
def perceptronEtaFit (eta : ℚ) (m : PerceptronModel) (fuel : Nat) (X : List (List ℚ)) (y : List ℚ) : Option PFit :=
  let Xd := make_polynomial X m.degree m.bias
  let s0 : PerceptronModel :=
    { m with thetas := List.replicate (cols Xd) 0, errors := [], weights := some [] }
  match perceptronEtaLoop eta m.tol (Xd.zip y) fuel s0 with
  | none => none
  | some s => if cols Xd = 3 then some (PFit.ok s) else some PFit.valueError

/-! ## AdalineGD -/

/-- Instance state of `AdalineGD`, the fields set by `__init__` (lines
124-131): `eta`, `niter`, `cost`, `bias`, `thetas` (starts `None`) and
`degree` (always initialized to 1). -/
structure AdalineModel where
  eta : ℚ
  niter : Nat
  cost : List ℚ
  bias : Bool
  thetas : Option (List ℚ)
  degree : Nat
deriving DecidableEq, Repr

/-- Source `AdalineGD.__init__` with its defaults `eta=0.01`, `niter=50`,
`bias=True`: `cost` starts empty, `thetas` starts `None`, `degree = 1`. -/
def AdalineGD.init (eta : ℚ := 1 / 100) (niter : Nat := 50) (bias : Bool := true) : AdalineModel :=
  { eta := eta, niter := niter, cost := [], bias := bias, thetas := none, degree := 1 }

/-- Source `AdalineGD.activation` (line 190): the identity function. -/
def AdalineGD.activation (z : List ℚ) : List ℚ := z

/-- The product `X.T @ error`: componentwise, column `j` of the result is
`Σᵢ X i j * error i`, computed as the sum of `error i • row i` starting
from the zero vector of length `cols X`. -/
def matT_mul_vec (X : List (List ℚ)) (e : List ℚ) : List ℚ :=
  (X.zip e).foldl (fun acc p => vadd acc (smul p.2 p.1)) (List.replicate (cols X) 0)

/-- Body of the `for _ in range(self.niter)` loop of `AdalineGD.fit`
(lines 156-161): full-batch error, squared-error loss against the raw
sample count `n`, gradient step divided by `X.shape[0]` of the expanded
matrix, loss appended to the cost history. -/
def adalineIter (eta : ℚ) (n : Nat) (Xd : List (List ℚ)) (y : List ℚ) (s : List ℚ × List ℚ) : List ℚ × List ℚ :=
  let err := vsub y (AdalineGD.activation (net_input_batch Xd s.1))
  let loss := net_input err err / (2 * (n : ℚ))
  (vadd s.1 (vdiv (smul eta (matT_mul_vec Xd err)) ((Xd.length : ℚ))), s.2 ++ [loss])

/-- Source `AdalineGD.fit` (lines 133-162): weights reset to
`np.zeros(1 + X.shape[1])` from the raw matrix, design matrix built with
`bias=True` regardless of `self.bias`, then exactly `niter` batch
iterations; `self.cost` is NOT reset, the losses are appended to it. -/
def AdalineGD.fit (m : AdalineModel) (X : List (List ℚ)) (y : List ℚ) : AdalineModel :=
  let theta0 := List.replicate (1 + cols X) 0
  let n := X.length
  let Xd := make_polynomial X m.degree true
  let r := (adalineIter m.eta n Xd y)^[m.niter] (theta0, m.cost)
  { m with thetas := some r.1, cost := r.2 }

/-- Source `AdalineGD.predict` (lines 192-209):
`np.where(self.activation(self.net_input(X, w)) >= 0.0, 1, -1)` where `w`
is the optional `thetas` argument, or `self.thetas` when that is `None`.
Calling it with both `None` is a `TypeError` in Python (unfitted model);
that unfitted weight vector is modelled as the empty list. -/
def AdalineGD.predict (m : AdalineModel) (X : List (List ℚ)) (thetas : Option (List ℚ)) : List ℚ :=
  match thetas with
  | none =>
    (AdalineGD.activation (net_input_batch X (m.thetas.getD []))).map
      (fun z => if 0 ≤ z then 1 else -1)
  | some t =>
    (AdalineGD.activation (net_input_batch X t)).map (fun z => if 0 ≤ z then 1 else -1)

/-- Method form of `AdalineGD.predict`: reads the instance state and
performs no assignment to it, so it returns the state unchanged next to
the predicted labels. -/
def AdalineGD.predictM (m : AdalineModel) (X : List (List ℚ)) (thetas : Option (List ℚ)) : AdalineModel × List ℚ :=
  (m, AdalineGD.predict m X thetas)

/-! ## Spec-side relations used to state claims -/

/-- Spec-side description of one Perceptron epoch (spec §4.3): visit each
(sample, label) pair in original order; predict by the rule
`sign(net_input) ≥ 0 → +1 else −1` with the current weights; on
disagreement update `thetas += label * xi` (no learning-rate factor) and
count one mistake. -/
inductive EpochVisits : List ℚ → List (List ℚ × ℚ) → List ℚ → Nat → Prop where
  | nil : ∀ θ, EpochVisits θ [] θ 0
  | hit : ∀ θ xi target rest θ' e,
      target = (if 0 ≤ net_input xi θ then (1 : ℚ) else -1) →
      EpochVisits θ rest θ' e →
      EpochVisits θ ((xi, target) :: rest) θ' e
  | miss : ∀ θ xi target rest θ' e,
      target ≠ (if 0 ≤ net_input xi θ then (1 : ℚ) else -1) →
      EpochVisits (vadd θ (smul target xi)) rest θ' e →
      EpochVisits θ ((xi, target) :: rest) θ' (1 + e)

/-- Spec-side description of one AdalineGD batch iteration (spec §4.4):
over the entire design matrix at once, error = target − activation(net
input), scalar cost (errorᵀ·error)/(2n) appended unconditionally, update
thetas += eta · Xᵀ·error / n with n the number of samples; the index
counts exactly how many such iterations relate start state to end state. -/
inductive AdalineRunSpec (eta : ℚ) (Xd : List (List ℚ)) (y : List ℚ) (n : Nat) :
    Nat → List ℚ × List ℚ → List ℚ × List ℚ → Prop where
  | done : ∀ s, AdalineRunSpec eta Xd y n 0 s s
  | step : ∀ k θ cost out,
      AdalineRunSpec eta Xd y n k
        (vadd θ
          (vdiv (smul eta (matT_mul_vec Xd (vsub y (AdalineGD.activation (net_input_batch Xd θ)))))
            ((n : ℚ))),
          cost ++
            [net_input (vsub y (AdalineGD.activation (net_input_batch Xd θ)))
                (vsub y (AdalineGD.activation (net_input_batch Xd θ))) / (2 * (n : ℚ))]) out →
      AdalineRunSpec eta Xd y n (k + 1) (θ, cost) out

/-! ## Concrete datasets and runs used by witnesses and counterexamples -/

/-- A one-sample dataset on which the Perceptron converges in one epoch. -/
def trivX : List (List ℚ) := [[1, 1]]

/-- Label of the one-sample dataset. -/
def trivY : List ℚ := [1]

/-- The state `Perceptron().fit(trivX, trivY)` ends in. -/
def trivFitted : PerceptronModel where
  thetas := [0, 0, 0]
  weights := some [[0, 0, 0]]
  errors := [0]
  degree := 1
  bias := true
  tol := 1 / 100000

/-- Raw features of a linearly separable two-sample dataset on which the
default tolerance stops training while a sample is still misclassified. -/
def sepX : List (List ℚ) := [[1 - 1/1000000, 0], [1, 0]]

/-- Labels of the separable two-sample dataset. -/
def sepY : List ℚ := [-1, 1]

/-- A weight vector that separates `sepX`/`sepY` perfectly. -/
def sepW : List ℚ := [-1999999, 2000000, 0]

/-- The state `Perceptron().fit(sepX, sepY)` ends in. -/
def sepFitted : PerceptronModel where
  thetas := [0, 1/1000000, 0]
  weights := some [[0, 1/1000000, 0]]
  errors := [2]
  degree := 1
  bias := true
  tol := 1 / 100000

/-- The AND-gate dataset from the spec's test scenarios. -/
def andX : List (List ℚ) := [[0, 0], [0, 1], [1, 0], [1, 1]]

/-- Labels of the AND-gate dataset. -/
def andY : List ℚ := [-1, -1, -1, 1]

/-- The state `Perceptron().fit(andX, andY)` ends in (six epochs). -/
def andFitted : PerceptronModel where
  thetas := [-3, 2, 1]
  weights := some [[0, 1, 1], [-1, 2, 1], [-2, 2, 1], [-2, 2, 2], [-3, 2, 1], [-3, 2, 1]]
  errors := [2, 3, 3, 2, 1, 0]
  degree := 1
  bias := true
  tol := 1 / 100000

/-- A pre-training state with three zeroed weights and an empty snapshot
store, as `Perceptron.fit` creates before its first epoch. -/
def zeroState3 : PerceptronModel where
  thetas := [0, 0, 0]
  weights := some []
  errors := []
  degree := 1
  bias := true
  tol := 1 / 100000

/-- The state the eta = 10⁻⁶ scaled variant ends in on the AND-gate
dataset: it already passes the default tolerance test after one epoch. -/
def andEtaFitted : PerceptronModel where
  thetas := [0, 1/1000000, 1/1000000]
  weights := some [[0, 1/1000000, 1/1000000]]
  errors := [2]
  degree := 1
  bias := true
  tol := 1 / 100000

/-! ## Supporting lemmas -/

theorem make_polynomial_length (X : List (List ℚ)) (d : Nat) (b : Bool) :
    (make_polynomial X d b).length = X.length := by
  unfold make_polynomial
  cases b <;> simp

theorem perceptronEpoch_shift (pairs : List (List ℚ × ℚ)) :
    ∀ (θ : List ℚ) (c : Nat),
      List.foldl perceptronStep (θ, c) pairs =
        ((perceptronEpoch θ pairs).1, c + (perceptronEpoch θ pairs).2) := by
  induction pairs with
  | nil => intro θ c; rfl
  | cons p rest ih =>
    intro θ c
    by_cases h : p.2 ≠ Perceptron.predict θ p.1
    · simp only [perceptronEpoch, List.foldl_cons, perceptronStep, if_pos h]
      rw [ih, ih]
      exact Prod.ext rfl (by omega)
    · simp only [perceptronEpoch, List.foldl_cons, perceptronStep, if_neg h]
      rw [ih, ih]
      simp

/-- In one epoch fold, the mistake counter never decreases. -/
theorem perceptronEpoch_count_le (pairs : List (List ℚ × ℚ)) (θ : List ℚ) (c : Nat) :
    c ≤ (List.foldl perceptronStep (θ, c) pairs).2 := by
  rw [perceptronEpoch_shift]
  omega

/-! ## C1: what one epoch of Perceptron.fit does -/

/-- An epoch starting with a misclassified head pair: the head contributes
one mistake and the updated weights are used for the tail. -/
theorem perceptronEpoch_cons_miss (p : List ℚ × ℚ) (rest : List (List ℚ × ℚ)) (θ : List ℚ)
    (h : p.2 ≠ Perceptron.predict θ p.1) :
    perceptronEpoch θ (p :: rest) =
      ((perceptronEpoch (vadd θ (smul p.2 p.1)) rest).1,
        1 + (perceptronEpoch (vadd θ (smul p.2 p.1)) rest).2) := by
  show List.foldl perceptronStep (perceptronStep (θ, 0) p) rest = _
  rw [show perceptronStep (θ, 0) p = (vadd θ (smul p.2 p.1), 1) from by
    simp [perceptronStep, h]]
  rw [perceptronEpoch_shift]

/-- An epoch starting with a correctly classified head pair leaves the
state untouched for the tail. -/
theorem perceptronEpoch_cons_hit (p : List ℚ × ℚ) (rest : List (List ℚ × ℚ)) (θ : List ℚ)
    (h : p.2 = Perceptron.predict θ p.1) :
    perceptronEpoch θ (p :: rest) = perceptronEpoch θ rest := by
  show List.foldl perceptronStep (perceptronStep (θ, 0) p) rest = _
  rw [show perceptronStep (θ, 0) p = (θ, 0) from by simp [perceptronStep, h]]
  rfl

theorem perceptronEpoch_visits (pairs : List (List ℚ × ℚ)) :
    ∀ θ : List ℚ,
      EpochVisits θ pairs (perceptronEpoch θ pairs).1 (perceptronEpoch θ pairs).2 := by
  induction pairs with
  | nil => intro θ; exact EpochVisits.nil θ
  | cons p rest ih =>
    intro θ
    by_cases h : p.2 ≠ Perceptron.predict θ p.1
    · rw [perceptronEpoch_cons_miss p rest θ h]
      exact EpochVisits.miss θ p.1 p.2 rest _ _ h (ih (vadd θ (smul p.2 p.1)))
    · push_neg at h
      rw [perceptronEpoch_cons_hit p rest θ h]
      exact EpochVisits.hit θ p.1 p.2 rest _ _ h (ih θ)

/-- C1: during `Perceptron.fit`, each epoch visits every (sample, label)
pair in original order, updating `thetas += label * xi` (with no
learning-rate scaling) exactly at the samples whose current prediction
disagrees with the label, and the resulting mistake count of that epoch is
appended to the `errors` history. -/
theorem perceptron_fit_epoch_behavior (pairs : List (List ℚ × ℚ)) (s : PerceptronModel) :
    ∃ e : Nat,
      EpochVisits s.thetas pairs (epochUpdate pairs s).thetas e ∧
      (epochUpdate pairs s).errors = s.errors ++ [e] := by
  refine ⟨(perceptronEpoch s.thetas pairs).2, ?_, rfl⟩
  exact perceptronEpoch_visits pairs s.thetas

/-! ## C6: the prediction rules -/

/-- C6: `Perceptron.predict` returns +1 exactly when the net input is ≥ 0
and −1 exactly when it is < 0; `AdalineGD.predict` applies the same
threshold to `activation(net_input)` elementwise over all rows at once
(both with an explicit weight argument and with the stored weights). -/
theorem predict_sign_rule (θ x : List ℚ) (m : AdalineModel) (X : List (List ℚ)) (t : List ℚ) :
    (Perceptron.predict θ x = 1 ↔ 0 ≤ net_input x θ) ∧
    (Perceptron.predict θ x = -1 ↔ net_input x θ < 0) ∧
    AdalineGD.predict m X (some t) =
      X.map (fun row => if 0 ≤ net_input row t then 1 else -1) ∧
    AdalineGD.predict m X none =
      X.map (fun row => if 0 ≤ net_input row (m.thetas.getD []) then 1 else -1) := by
  refine ⟨?_, ?_, ?_, ?_⟩
  · unfold Perceptron.predict
    by_cases h : 0 ≤ net_input x θ
    · rw [if_pos h]; simp [h]
    · rw [if_neg h]
      constructor
      · intro h1; norm_num at h1
      · intro h0; exact absurd h0 h
  · unfold Perceptron.predict
    by_cases h : 0 ≤ net_input x θ
    · rw [if_pos h]
      constructor
      · intro h1; norm_num at h1
      · intro hlt; exact absurd h (not_le.mpr hlt)
    · rw [if_neg h]
      simp [not_le.mp h]
  · simp [AdalineGD.predict, AdalineGD.activation, net_input_batch, List.map_map, Function.comp]
  · simp [AdalineGD.predict, AdalineGD.activation, net_input_batch, List.map_map, Function.comp]

/-! ## C8: predict does not mutate the instance -/

/-- C8: for both models, the method form of `predict` leaves the instance
state (weight vector, weight trajectory, history) exactly as it was. -/
theorem predict_preserves_state (m : PerceptronModel) (x : List ℚ)
    (a : AdalineModel) (X : List (List ℚ)) (t : Option (List ℚ)) :
    (Perceptron.predictM m x).1 = m ∧ (AdalineGD.predictM a X t).1 = a :=
  ⟨rfl, rfl⟩

/-! ## C9: the fixed DataFrame column names require 3 design columns -/

/-- C9: when `Perceptron.fit` terminates, it returns a fitted model exactly
when the design matrix has 3 columns (matching the fixed column names
`bias`, `weight1`, `weight2`); for any other column count the DataFrame
construction after the training loop raises instead. -/
theorem perceptron_fit_requires_three_columns (m : PerceptronModel) (fuel : Nat)
    (X : List (List ℚ)) (y : List ℚ) (r : PFit)
    (h : Perceptron.fit m fuel X y = some r) :
    (∃ m', r = PFit.ok m') ↔ cols (make_polynomial X m.degree m.bias) = 3 := by
  simp only [Perceptron.fit] at h
  split at h
  · exact absurd h (by simp)
  · by_cases hc : cols (make_polynomial X m.degree m.bias) = 3
    · rw [if_pos hc] at h
      simp only [Option.some.injEq] at h
      subst h
      exact ⟨fun _ => hc, fun _ => ⟨_, rfl⟩⟩
    · rw [if_neg hc] at h
      simp only [Option.some.injEq] at h
      subst h
      constructor
      · rintro ⟨m', hm'⟩; cases hm'
      · intro hk; exact absurd hk hc

/-- Witness for C9 at a concrete input: one raw feature gives a 2-column
design matrix, the loop converges immediately, and fit raises. -/
theorem perceptron_fit_requires_three_columns_witness :
    Perceptron.fit Perceptron.default 2 [[1]] [1] = some PFit.valueError ∧
    ((∃ m', PFit.valueError = PFit.ok m') ↔
      cols (make_polynomial [[1]] Perceptron.default.degree Perceptron.default.bias) = 3) :=
  ⟨by decide,
    perceptron_fit_requires_three_columns Perceptron.default 2 [[1]] [1] PFit.valueError
      (by decide)⟩

/-! ## C2: AdalineGD.fit runs exactly niter spec-iterations -/

theorem adalineIter_runSpec (eta : ℚ) (Xd : List (List ℚ)) (y : List ℚ) :
    ∀ (k : Nat) (s : List ℚ × List ℚ),
      AdalineRunSpec eta Xd y Xd.length k s (((adalineIter eta Xd.length Xd y)^[k]) s) := by
  intro k
  induction k with
  | zero => intro s; exact AdalineRunSpec.done s
  | succ k ih =>
    intro s
    obtain ⟨θ, c⟩ := s
    rw [Function.iterate_succ_apply]
    exact AdalineRunSpec.step k θ c _ (ih (adalineIter eta Xd.length Xd y (θ, c)))

theorem adalineIter_cost_length (eta : ℚ) (n : Nat) (Xd : List (List ℚ)) (y : List ℚ) :
    ∀ (k : Nat) (s : List ℚ × List ℚ),
      (((adalineIter eta n Xd y)^[k]) s).2.length = s.2.length + k := by
  intro k
  induction k with
  | zero => intro s; rfl
  | succ k ih =>
    intro s
    rw [Function.iterate_succ_apply, ih]
    simp [adalineIter]
    omega

/-- C2: `AdalineGD.fit` performs exactly `niter` batch iterations of the
spec's formulas, with no convergence check, starting from the zero weight
vector of length 1 + raw columns, and the cost history grows by exactly
`niter` entries regardless of the cost values. -/
theorem adaline_fit_runs_exactly_niter (m : AdalineModel) (X : List (List ℚ)) (y : List ℚ) :
    ∃ θfin : List ℚ,
      (AdalineGD.fit m X y).thetas = some θfin ∧
      AdalineRunSpec m.eta (make_polynomial X m.degree true) y X.length m.niter
        (List.replicate (1 + cols X) 0, m.cost) (θfin, (AdalineGD.fit m X y).cost) ∧
      (AdalineGD.fit m X y).cost.length = m.cost.length + m.niter := by
  have hlen : (make_polynomial X m.degree true).length = X.length :=
    make_polynomial_length X m.degree true
  refine ⟨((adalineIter m.eta X.length (make_polynomial X m.degree true) y)^[m.niter]
      (List.replicate (1 + cols X) 0, m.cost)).1, rfl, ?_, ?_⟩
  · have h := adalineIter_runSpec m.eta (make_polynomial X m.degree true) y m.niter
      (List.replicate (1 + cols X) 0, m.cost)
    rw [hlen] at h
    simpa [AdalineGD.fit] using h
  · exact adalineIter_cost_length m.eta X.length (make_polynomial X m.degree true) y m.niter _

/-! ## C3: the termination test and the default tolerance -/

/-- C3 counterexample: the source default is `tol: float = 10e-6`, the
decimal value 10⁻⁵, not the 10⁻⁶ stated by the claim. -/
theorem perceptron_default_tol_not_1e6 : Perceptron.default.tol ≠ 1 / 1000000 := by decide

/-- C3 (amended): the Perceptron training loop terminates (for some fuel)
exactly when some epoch changes the weight vector by a Euclidean norm at
most `tol`, and the default tolerance is 10⁻⁵ (`10e-6`), not 10⁻⁶. -/
theorem perceptron_loop_terminates_iff (tol : ℚ) (pairs : List (List ℚ × ℚ)) (s : PerceptronModel) :
    ((∃ fuel r, perceptronLoop tol pairs fuel s = some r) ↔
      (∃ k, normLe (vsub (((epochUpdate pairs)^[k + 1]) s).thetas
        (((epochUpdate pairs)^[k]) s).thetas) tol)) ∧
    Perceptron.default.tol = 1 / 100000 := by
  refine ⟨⟨?_, ?_⟩, by decide⟩
  · rintro ⟨fuel, r, h⟩
    induction fuel generalizing s with
    | zero => simp [perceptronLoop] at h
    | succ fuel ih =>
      simp only [perceptronLoop] at h
      by_cases hc : normLe (vsub (epochUpdate pairs s).thetas s.thetas) tol
      · exact ⟨0, by simpa using hc⟩
      · rw [if_neg hc] at h
        obtain ⟨k, hk⟩ := ih (epochUpdate pairs s) h
        refine ⟨k + 1, ?_⟩
        rw [Function.iterate_succ_apply, Function.iterate_succ_apply]
        exact hk
  · rintro ⟨k, hk⟩
    induction k generalizing s with
    | zero =>
      refine ⟨1, epochUpdate pairs s, ?_⟩
      simp only [perceptronLoop]
      rw [if_pos (by simpa using hk)]
    | succ k ih =>
      by_cases hc : normLe (vsub (epochUpdate pairs s).thetas s.thetas) tol
      · exact ⟨1, epochUpdate pairs s, by simp only [perceptronLoop]; rw [if_pos hc]⟩
      · rw [Function.iterate_succ_apply, Function.iterate_succ_apply] at hk
        obtain ⟨fuel, r, h⟩ := ih (epochUpdate pairs s) hk
        exact ⟨fuel + 1, r, by simp only [perceptronLoop]; rw [if_neg hc]; exact h⟩

/-! ## C10: AdalineGD.fit ignores the bias flag -/

theorem matT_mul_vec_foldl_length (L : Nat) :
    ∀ (ps : List (List ℚ × ℚ)) (acc : List ℚ), acc.length = L →
      (∀ p ∈ ps, p.1.length = L) →
      (ps.foldl (fun acc p => vadd acc (smul p.2 p.1)) acc).length = L := by
  intro ps
  induction ps with
  | nil => intro acc h _; exact h
  | cons p rest ih =>
    intro acc hacc hall
    simp only [List.foldl_cons]
    refine ih _ ?_ (fun q hq => hall q (List.mem_cons_of_mem p hq))
    have hp := hall p (List.mem_cons_self p rest)
    simp [vadd, smul, hacc, hp]

theorem adalineIter_preserves_length (eta : ℚ) (n : Nat) (Xd : List (List ℚ)) (y : List ℚ)
    (L : Nat) (hcols : cols Xd = L) (hrows : ∀ r ∈ Xd, r.length = L) :
    ∀ (k : Nat) (s : List ℚ × List ℚ), s.1.length = L →
      (((adalineIter eta n Xd y)^[k]) s).1.length = L := by
  intro k
  induction k with
  | zero => intro s h; exact h
  | succ k ih =>
    intro s h
    rw [Function.iterate_succ_apply]
    refine ih _ ?_
    have hmat : (matT_mul_vec Xd (vsub y (AdalineGD.activation (net_input_batch Xd s.1)))).length = L := by
      refine matT_mul_vec_foldl_length L _ _ (by simp [hcols]) ?_
      intro p hp
      exact hrows p.1 (List.of_mem_zip hp).1
    simp [adalineIter, vadd, vdiv, smul, h, hmat]

/-- C10: `AdalineGD.fit` always builds the design matrix with `bias=True`:
the fitted state does not depend on the instance's `bias` flag, every
design-matrix row starts with the constant 1, and (for a nonempty
rectangular input at the constructor's `degree = 1`) the weight vector has
length 1 + raw column count of `X`. -/
theorem adaline_fit_ignores_bias_flag (m : AdalineModel) (b : Bool) (X : List (List ℚ)) (y : List ℚ) :
    AdalineGD.fit { m with bias := b } X y = { AdalineGD.fit m X y with bias := b } ∧
    (∀ r' ∈ make_polynomial X m.degree true, ∃ t, r' = 1 :: t) ∧
    (m.degree = 1 → X ≠ [] → (∀ row ∈ X, row.length = cols X) →
      ∃ θ, (AdalineGD.fit m X y).thetas = some θ ∧ θ.length = 1 + cols X) := by
  refine ⟨rfl, ?_, ?_⟩
  · intro r' hr'
    simp only [make_polynomial, if_pos, List.mem_map] at hr'
    obtain ⟨t, _, rfl⟩ := hr'
    exact ⟨t, rfl⟩
  · intro hdeg hne hrect
    refine ⟨_, rfl, ?_⟩
    rw [hdeg]
    obtain ⟨r0, rest, rfl⟩ := List.exists_cons_of_ne_nil hne
    have hXd : make_polynomial (r0 :: rest) 1 true = (r0 :: rest).map (fun r => 1 :: r) := by
      simp [make_polynomial, List.range_succ, pow_one]
    refine adalineIter_preserves_length _ _ _ _ (1 + cols (r0 :: rest)) ?_ ?_ _ _ ?_
    · rw [hXd]
      simp [cols]
      omega
    · intro r hr
      rw [hXd] at hr
      simp only [List.mem_map] at hr
      obtain ⟨t, ht, rfl⟩ := hr
      simp [hrect t ht]
      omega
    · simp

/-! ## C4: what fit discards and what it accumulates -/

theorem perceptronLoop_preserves_hyper (tol : ℚ) (pairs : List (List ℚ × ℚ)) :
    ∀ (fuel : Nat) (s r : PerceptronModel), perceptronLoop tol pairs fuel s = some r →
      r.degree = s.degree ∧ r.bias = s.bias ∧ r.tol = s.tol := by
  intro fuel
  induction fuel with
  | zero => intro s r h; simp [perceptronLoop] at h
  | succ fuel ih =>
    intro s r h
    simp only [perceptronLoop] at h
    by_cases hc : normLe (vsub (epochUpdate pairs s).thetas s.thetas) tol
    · rw [if_pos hc] at h
      rw [← Option.some.inj h]
      exact ⟨rfl, rfl, rfl⟩
    · rw [if_neg hc] at h
      exact ih (epochUpdate pairs s) r h

theorem perceptron_fit_depends_only_on_hyper (m m' : PerceptronModel)
    (h1 : m'.degree = m.degree) (h2 : m'.bias = m.bias) (h3 : m'.tol = m.tol)
    (fuel : Nat) (X : List (List ℚ)) (y : List ℚ) :
    Perceptron.fit m' fuel X y = Perceptron.fit m fuel X y := by
  obtain ⟨t, w, e, d, bb, tl⟩ := m
  obtain ⟨t', w', e', d', bb', tl'⟩ := m'
  dsimp only at h1 h2 h3
  subst h1; subst h2; subst h3
  rfl

/-- An iteration function that only appends to its second (cost) component
behaves on the cost history as pure accumulation: the weight component is
independent of the starting history, and the history decomposes as the
start followed by what a fresh start would have produced. -/
theorem iterate_append_cost (F G : List ℚ → List ℚ) (f : List ℚ × List ℚ → List ℚ × List ℚ)
    (hf : ∀ θ c, f (θ, c) = (F θ, c ++ G θ)) :
    ∀ (k : Nat) (θ c : List ℚ),
      ((f^[k]) (θ, c)).1 = ((f^[k]) (θ, [])).1 ∧
      ((f^[k]) (θ, c)).2 = c ++ ((f^[k]) (θ, [])).2 := by
  intro k
  induction k with
  | zero => intro θ c; simp
  | succ k ih =>
    intro θ c
    rw [Function.iterate_succ_apply, Function.iterate_succ_apply, hf, hf]
    obtain ⟨ha, hb⟩ := ih (F θ) (c ++ G θ)
    obtain ⟨ha', hb'⟩ := ih (F θ) ([] ++ G θ)
    constructor
    · rw [ha, ha']
    · rw [hb, hb']
      simp

/-- C4 (amended): `Perceptron.fit` recomputes from scratch, so a second
fit call on a fitted instance gives exactly what fitting the original
instance gives; `AdalineGD.fit` resets the weights (the weight vector
after two fits equals the one after a single fit) but does NOT reset the
cost history: the second call appends a fresh run's costs to the first
call's history. -/
theorem fit_reset_semantics :
    (∀ (m m' : PerceptronModel) (fuel fuel' : Nat) (X : List (List ℚ)) (y : List ℚ),
        Perceptron.fit m fuel X y = some (PFit.ok m') →
        Perceptron.fit m' fuel' X y = Perceptron.fit m fuel' X y) ∧
    (∀ (m : AdalineModel) (X : List (List ℚ)) (y : List ℚ),
        (AdalineGD.fit (AdalineGD.fit m X y) X y).thetas = (AdalineGD.fit m X y).thetas ∧
        (AdalineGD.fit (AdalineGD.fit m X y) X y).cost =
          (AdalineGD.fit m X y).cost ++ (AdalineGD.fit { m with cost := [] } X y).cost) := by
  constructor
  · intro m m' fuel fuel' X y hfit
    simp only [Perceptron.fit] at hfit
    split at hfit
    · exact absurd hfit (by simp)
    · rename_i s hs
      have hyper := perceptronLoop_preserves_hyper m.tol
        ((make_polynomial X m.degree m.bias).zip y) fuel _ s hs
      by_cases hc : cols (make_polynomial X m.degree m.bias) = 3
      · rw [if_pos hc] at hfit
        simp only [Option.some.injEq, PFit.ok.injEq] at hfit
        rw [← hfit]
        exact perceptron_fit_depends_only_on_hyper m s hyper.1 hyper.2.1 hyper.2.2 fuel' X y
      · rw [if_neg hc] at hfit
        simp at hfit
  · intro m X y
    obtain ⟨et, ni, co, bi, th, de⟩ := m
    have key := iterate_append_cost
      (fun θ => (adalineIter et X.length (make_polynomial X de true) y (θ, [])).1)
      (fun θ => (adalineIter et X.length (make_polynomial X de true) y (θ, [])).2)
      (adalineIter et X.length (make_polynomial X de true) y)
      (fun θ c => rfl)
    have hfit : ∀ (c : List ℚ) (th' : Option (List ℚ)),
        AdalineGD.fit ⟨et, ni, c, bi, th', de⟩ X y =
          ⟨et, ni,
            (((adalineIter et X.length (make_polynomial X de true) y)^[ni])
              (List.replicate (1 + cols X) 0, c)).2, bi,
            some ((((adalineIter et X.length (make_polynomial X de true) y)^[ni])
              (List.replicate (1 + cols X) 0, c)).1), de⟩ := fun c th' => rfl
    constructor
    · rw [hfit co, hfit]
      dsimp only
      rw [(key ni _ _).1, (key ni (List.replicate (1 + cols X) 0) co).1]
    · dsimp only
      rw [hfit co, hfit, hfit]
      dsimp only
      rw [(key ni _ _).2]

/-- Witness for C4: a concrete converging Perceptron run; refitting the
fitted instance gives the same result as fitting a fresh one. -/
theorem fit_reset_semantics_witness :
    Perceptron.fit Perceptron.default 2 trivX trivY = some (PFit.ok trivFitted) ∧
    Perceptron.fit trivFitted 5 trivX trivY = Perceptron.fit Perceptron.default 5 trivX trivY :=
  ⟨by decide,
    fit_reset_semantics.1 Perceptron.default trivFitted 2 5 trivX trivY (by decide)⟩

/-- C4 counterexample: two successive `AdalineGD.fit` calls do not leave
the instance in the state a single call leaves, because the cost history
doubles in length instead of being reset. -/
theorem adaline_fit_accumulates_cost :
    AdalineGD.fit (AdalineGD.fit (AdalineGD.init 1 1 true) [[1]] [1]) [[1]] [1] ≠
      AdalineGD.fit (AdalineGD.init 1 1 true) [[1]] [1] := by decide

/-! ## C5: separable data and the tolerance-based stop -/

theorem perceptronLoop_result_shape (tol : ℚ) (pairs : List (List ℚ × ℚ)) :
    ∀ (fuel : Nat) (s r : PerceptronModel), perceptronLoop tol pairs fuel s = some r →
      ∃ s0, r = epochUpdate pairs s0 := by
  intro fuel
  induction fuel with
  | zero => intro s r h; simp [perceptronLoop] at h
  | succ fuel ih =>
    intro s r h
    simp only [perceptronLoop] at h
    by_cases hc : normLe (vsub (epochUpdate pairs s).thetas s.thetas) tol
    · rw [if_pos hc] at h
      exact ⟨s, (Option.some.inj h).symm⟩
    · rw [if_neg hc] at h
      exact ih (epochUpdate pairs s) r h

theorem perceptronEpoch_zero_mistakes (pairs : List (List ℚ × ℚ)) :
    ∀ θ : List ℚ, (perceptronEpoch θ pairs).2 = 0 →
      (perceptronEpoch θ pairs).1 = θ ∧ ∀ p ∈ pairs, Perceptron.predict θ p.1 = p.2 := by
  induction pairs with
  | nil => intro θ _; exact ⟨rfl, by simp⟩
  | cons p rest ih =>
    intro θ h0
    by_cases h : p.2 ≠ Perceptron.predict θ p.1
    · rw [perceptronEpoch_cons_miss p rest θ h] at h0
      simp at h0
    · push_neg at h
      rw [perceptronEpoch_cons_hit p rest θ h] at h0
      have hih := ih θ h0
      rw [perceptronEpoch_cons_hit p rest θ h]
      refine ⟨hih.1, ?_⟩
      intro q hq
      rcases List.mem_cons.mp hq with hq' | hq'
      · rw [hq']
        exact h.symm
      · exact hih.2 q hq'

/-- C5 (amended): the zero-misclassification guarantee holds exactly via
the mistake count: whenever `Perceptron.fit` returns a fitted model whose
last recorded epoch made zero mistakes, every training pair is classified
correctly by the final weights.  Termination on separable data with zero
misclassifications is NOT guaranteed in general: the tolerance test can
stop training earlier (see the counterexample). -/
theorem perceptron_zero_error_epoch_correct (m m' : PerceptronModel) (fuel : Nat)
    (X : List (List ℚ)) (y : List ℚ)
    (hfit : Perceptron.fit m fuel X y = some (PFit.ok m'))
    (hlast : m'.errors.getLast? = some 0) :
    ∀ p ∈ (make_polynomial X m.degree m.bias).zip y,
      Perceptron.predict m'.thetas p.1 = p.2 := by
  simp only [Perceptron.fit] at hfit
  split at hfit
  · exact absurd hfit (by simp)
  · rename_i s hs
    by_cases hc : cols (make_polynomial X m.degree m.bias) = 3
    · rw [if_pos hc] at hfit
      simp only [Option.some.injEq, PFit.ok.injEq] at hfit
      subst hfit
      obtain ⟨s0, rfl⟩ := perceptronLoop_result_shape m.tol _ fuel _ s hs
      have herr : (epochUpdate ((make_polynomial X m.degree m.bias).zip y) s0).errors =
          s0.errors ++ [(perceptronEpoch s0.thetas ((make_polynomial X m.degree m.bias).zip y)).2] := rfl
      rw [herr] at hlast
      rw [List.getLast?_append_cons] at hlast
      have hz : (perceptronEpoch s0.thetas ((make_polynomial X m.degree m.bias).zip y)).2 = 0 := by
        simpa using hlast
      have hzero := perceptronEpoch_zero_mistakes ((make_polynomial X m.degree m.bias).zip y)
        s0.thetas hz
      have hthetas : (epochUpdate ((make_polynomial X m.degree m.bias).zip y) s0).thetas =
          s0.thetas := hzero.1
      rw [hthetas]
      exact hzero.2
    · rw [if_neg hc] at hfit
      simp at hfit

/-- Witness for C5: a converging run whose last epoch made zero mistakes;
the fitted weights classify the (single) training pair correctly. -/
theorem perceptron_zero_error_epoch_correct_witness :
    Perceptron.fit Perceptron.default 2 trivX trivY = some (PFit.ok trivFitted) ∧
    trivFitted.errors.getLast? = some 0 ∧
    Perceptron.predict trivFitted.thetas [1, 1, 1] = 1 :=
  ⟨by decide, by decide,
    perceptron_zero_error_epoch_correct Perceptron.default trivFitted 2 trivX trivY
      (by decide) (by decide) ([1, 1, 1], 1) (by decide)⟩

/-- C5 counterexample: `sepW` separates the dataset perfectly (so it is
linearly separable), `Perceptron.fit` with all defaults terminates on it,
and the returned weight vector still misclassifies the first training
sample (predicting +1 on a −1 label): fit's tolerance test stopped on a
weight change of norm 10⁻⁶ ≤ 10⁻⁵. -/
theorem perceptron_separable_misclassified :
    make_polynomial sepX 1 true = [[1, 1 - 1/1000000, 0], [1, 1, 0]] ∧
    Perceptron.predict sepW [1, 1 - 1/1000000, 0] = -1 ∧
    Perceptron.predict sepW [1, 1, 0] = 1 ∧
    Perceptron.fit Perceptron.default 1 sepX sepY = some (PFit.ok sepFitted) ∧
    Perceptron.predict sepFitted.thetas [1, 1 - 1/1000000, 0] = 1 :=
  ⟨by decide, by decide, by decide, by decide, by decide⟩

/-! ## C7: effect of a positive learning rate on the Perceptron -/

theorem net_input_smul (eta : ℚ) : ∀ x θ : List ℚ,
    net_input x (smul eta θ) = eta * net_input x θ := by
  intro x
  induction x with
  | nil => intro θ; simp [net_input, smul]
  | cons a xs ih =>
    intro θ
    cases θ with
    | nil => simp [net_input, smul]
    | cons b θs =>
      have h := ih θs
      simp only [net_input, smul, List.map_cons, List.zipWith_cons_cons, List.sum_cons] at h ⊢
      rw [h]
      ring

theorem predict_smul (eta : ℚ) (heta : 0 < eta) (θ x : List ℚ) :
    Perceptron.predict (smul eta θ) x = Perceptron.predict θ x := by
  unfold Perceptron.predict
  rw [net_input_smul]
  by_cases h : 0 ≤ net_input x θ
  · rw [if_pos h, if_pos (mul_nonneg heta.le h)]
  · rw [if_neg h, if_neg (not_le.mpr (mul_neg_of_pos_of_neg heta (not_le.mp h)))]

theorem smul_vadd_smul (eta t : ℚ) : ∀ θ x : List ℚ,
    vadd (smul eta θ) (smul (eta * t) x) = smul eta (vadd θ (smul t x)) := by
  intro θ
  induction θ with
  | nil => intro x; simp [vadd, smul]
  | cons a θs ih =>
    intro x
    cases x with
    | nil => simp [vadd, smul]
    | cons b xs =>
      have h := ih xs
      simp only [vadd, smul, List.map_cons, List.zipWith_cons_cons] at h ⊢
      rw [h]
      congr 1
      ring

theorem perceptronEtaFold_scales (eta : ℚ) (heta : 0 < eta) (pairs : List (List ℚ × ℚ)) :
    ∀ (θ : List ℚ) (c : Nat),
      List.foldl (perceptronEtaStep eta) (smul eta θ, c) pairs =
        (smul eta (List.foldl perceptronStep (θ, c) pairs).1,
          (List.foldl perceptronStep (θ, c) pairs).2) := by
  induction pairs with
  | nil => intro θ c; rfl
  | cons p rest ih =>
    intro θ c
    simp only [List.foldl_cons]
    by_cases h : p.2 ≠ Perceptron.predict θ p.1
    · rw [show perceptronEtaStep eta (smul eta θ, c) p =
          (smul eta (vadd θ (smul p.2 p.1)), c + 1) from by
        simp [perceptronEtaStep, predict_smul eta heta, h, smul_vadd_smul]]
      rw [show perceptronStep (θ, c) p = (vadd θ (smul p.2 p.1), c + 1) from by
        simp [perceptronStep, h]]
      exact ih _ _
    · push_neg at h
      rw [show perceptronEtaStep eta (smul eta θ, c) p = (smul eta θ, c) from by
        simp [perceptronEtaStep, predict_smul eta heta, h]]
      rw [show perceptronStep (θ, c) p = (θ, c) from by simp [perceptronStep, h]]
      exact ih _ _

theorem smul_replicate_zero (eta : ℚ) (n : Nat) :
    smul eta (List.replicate n 0) = List.replicate n 0 := by
  simp [smul, List.map_replicate]

theorem epochEtaUpdate_iterate_scales (eta : ℚ) (heta : 0 < eta) (pairs : List (List ℚ × ℚ)) :
    ∀ (k : Nat) (s : PerceptronModel),
      (((epochEtaUpdate eta pairs)^[k])
          { s with thetas := smul eta s.thetas,
                   weights := some ((s.weights.getD []).map (smul eta)) }) =
        { ((epochUpdate pairs)^[k]) s with
            thetas := smul eta ((((epochUpdate pairs)^[k]) s).thetas),
            weights := some (((((epochUpdate pairs)^[k]) s).weights.getD []).map (smul eta)) } := by
  intro k
  induction k with
  | zero => intro s; rfl
  | succ k ih =>
    intro s
    rw [Function.iterate_succ_apply, Function.iterate_succ_apply]
    have hstep : epochEtaUpdate eta pairs
        { s with thetas := smul eta s.thetas,
                 weights := some ((s.weights.getD []).map (smul eta)) } =
        { epochUpdate pairs s with
            thetas := smul eta ((epochUpdate pairs s).thetas),
            weights := some (((epochUpdate pairs s).weights.getD []).map (smul eta)) } := by
      unfold epochEtaUpdate epochUpdate perceptronEtaEpoch perceptronEpoch
      rw [perceptronEtaFold_scales eta heta pairs s.thetas 0]
      simp
    rw [hstep, ih (epochUpdate pairs s)]

/-- C7 (amended): starting from zero weights, scaling the Perceptron
update by any positive learning rate eta multiplies the weight vector and
every stored weight snapshot by exactly eta at every epoch, leaves every
epoch's mistake count unchanged, and gives the identical prediction
(decision boundary) after any fixed number of epochs.  The claim's further
assertion that the FINAL boundary is identical fails, because the shared
tolerance test can stop the two runs at different epochs (see the
counterexample). -/
theorem perceptron_eta_scales_only (eta : ℚ) (heta : 0 < eta) (pairs : List (List ℚ × ℚ))
    (n k : Nat) (s0 : PerceptronModel)
    (hθ : s0.thetas = List.replicate n 0) (hw : s0.weights = some []) :
    (((epochEtaUpdate eta pairs)^[k]) s0).thetas =
        smul eta ((((epochUpdate pairs)^[k]) s0).thetas) ∧
    (((epochEtaUpdate eta pairs)^[k]) s0).errors = (((epochUpdate pairs)^[k]) s0).errors ∧
    (((epochEtaUpdate eta pairs)^[k]) s0).weights =
        some (((((epochUpdate pairs)^[k]) s0).weights.getD []).map (smul eta)) ∧
    ∀ x : List ℚ, Perceptron.predict ((((epochEtaUpdate eta pairs)^[k]) s0).thetas) x =
        Perceptron.predict ((((epochUpdate pairs)^[k]) s0).thetas) x := by
  have hs0 :
      { s0 with thetas := smul eta s0.thetas,
                weights := some ((s0.weights.getD []).map (smul eta)) } = s0 := by
    rw [hθ, hw, smul_replicate_zero]
    obtain ⟨t, w, e, d, bb, tl⟩ := s0
    dsimp only at hθ hw
    rw [hθ, hw]
    rfl
  have hiter := epochEtaUpdate_iterate_scales eta heta pairs k s0
  rw [hs0] at hiter
  rw [hiter]
  refine ⟨rfl, rfl, rfl, ?_⟩
  intro x
  exact predict_smul eta heta _ x

/-- Witness for C7 at a concrete input: eta = 2 on a one-pair dataset
after one epoch. -/
theorem perceptron_eta_scales_only_witness :
    (0 : ℚ) < 2 ∧
    ((((epochEtaUpdate 2 [([1, 1, 1], 1)])^[1]) zeroState3).thetas =
        smul 2 ((((epochUpdate [([1, 1, 1], 1)])^[1]) zeroState3).thetas) ∧
      (((epochEtaUpdate 2 [([1, 1, 1], 1)])^[1]) zeroState3).errors =
        (((epochUpdate [([1, 1, 1], 1)])^[1]) zeroState3).errors ∧
      (((epochEtaUpdate 2 [([1, 1, 1], 1)])^[1]) zeroState3).weights =
        some (((((epochUpdate [([1, 1, 1], 1)])^[1]) zeroState3).weights.getD []).map (smul 2)) ∧
      ∀ x : List ℚ,
        Perceptron.predict ((((epochEtaUpdate 2 [([1, 1, 1], 1)])^[1]) zeroState3).thetas) x =
          Perceptron.predict ((((epochUpdate [([1, 1, 1], 1)])^[1]) zeroState3).thetas) x) :=
  ⟨by norm_num,
    perceptron_eta_scales_only 2 (by norm_num) [([1, 1, 1], 1)] 3 1 zeroState3
      (by decide) (by decide)⟩

/-- C7 counterexample: on the AND-gate dataset with all defaults, the
unscaled run converges after six epochs to weights [-3, 2, 1] while the
eta = 10⁻⁶ scaled run already passes the tolerance test after one epoch,
and the two final weight vectors classify the sample [1, 0, 0]
differently, so the final decision boundary is not identical. -/
theorem perceptron_eta_changes_final_boundary :
    Perceptron.fit Perceptron.default 10 andX andY = some (PFit.ok andFitted) ∧
    perceptronEtaFit (1/1000000) Perceptron.default 3 andX andY = some (PFit.ok andEtaFitted) ∧
    Perceptron.predict andFitted.thetas [1, 0, 0] = -1 ∧
    Perceptron.predict andEtaFitted.thetas [1, 0, 0] = 1 :=
  ⟨by decide, by decide, by decide, by decide⟩

/-- Witness for C10 at a concrete input: a nonempty one-column dataset fit
by an instance constructed with bias=False still gets a two-entry weight
vector (bias plus one feature). -/
theorem adaline_fit_ignores_bias_flag_witness :
    (AdalineGD.init 1 1 false).degree = 1 ∧ ([[(1 : ℚ)]] ≠ ([] : List (List ℚ))) ∧
    (∀ row ∈ [[(1 : ℚ)]], row.length = cols [[(1 : ℚ)]]) ∧
    ∃ θ, (AdalineGD.fit (AdalineGD.init 1 1 false) [[1]] [1]).thetas = some θ ∧
      θ.length = 1 + cols [[(1 : ℚ)]] :=
  ⟨by decide, by decide, by decide,
    (adaline_fit_ignores_bias_flag (AdalineGD.init 1 1 false) true [[1]] [1]).2.2
      (by decide) (by decide) (by decide)⟩
